import Mathlib

/-!
Verification of the X-times-Y combination generator (src/app.py).

The application resolves two topic lists (manually entered or produced by a
structured-list backend call), then for every pair (x, y) in the Cartesian
product substitutes x and y for the literal characters X and Y of a template
and issues a text-generation query, rendering one result per pair together
with a progress counter.

Modelling conventions:
* Python strings are modelled as List Char.
* A backend text call is a function List Char -> Except Unit (Option (List Char));
  Except.error models a raised backend exception, the inner Option models a
  response whose .text field is missing (None).
* Python list comprehensions [f ln for ln in xs if p ln] are modelled as
  (xs.filter p).map f (when, as in this program, f is evaluated on the same
  expression as p).
-/

/- ===================== Python string primitives ===================== -/

/-- The characters Python str.strip() (no argument) removes, restricted to the
ASCII whitespace characters. -/
def pyWhitespace : List Char := [' ', '\t', '\n', '\r', '\x0b', '\x0c']

/-- Python str.lstrip(chars): drop leading characters belonging to cs. -/
def stripLead (cs : List Char) (s : List Char) : List Char :=
  s.dropWhile (fun c => cs.contains c)

/-- Python str.rstrip(chars): drop trailing characters belonging to cs. -/
def stripTrail (cs : List Char) (s : List Char) : List Char :=
  (s.reverse.dropWhile (fun c => cs.contains c)).reverse

/-- Python str.strip(chars): drop leading and trailing characters of cs. -/
def pyStrip (cs : List Char) (s : List Char) : List Char :=
  stripTrail cs (stripLead cs s)

/-- Python str.strip() with no argument (whitespace stripping). -/
def pyStripWs (s : List Char) : List Char :=
  pyStrip pyWhitespace s

/-- The strip set of the bullet-stripping call ln.strip("-bullet space tab")
at src/app.py:74. -/
def bulletStripSet : List Char := ['-', '•', ' ', '\t']

/-- Python single-character str.replace: every occurrence of the character
needle is replaced by repl, scanning left to right without rescanning the
replacement text.  The two calls at src/app.py:157 use the one-character
needles X and Y, for which Python str.replace is exactly this per-character
substitution. -/
def pyReplace (needle : Char) (repl : List Char) : List Char → List Char
  | [] => []
  | c :: rest => (if c = needle then repl else [c]) ++ pyReplace needle repl rest

/-- The query of src/app.py:157:
question_template.replace("X", x_word).replace("Y", y_word) -- the
X-substitution runs first, then the Y-substitution runs over its result. -/
def buildQuery (template x y : List Char) : List Char :=
  pyReplace 'Y' y (pyReplace 'X' x template)

/- ===================== Lemmas about pyReplace ===================== -/

theorem pyReplace_cons (needle : Char) (repl : List Char) (c : Char)
    (rest : List Char) :
    pyReplace needle repl (c :: rest)
      = (if c = needle then repl else [c]) ++ pyReplace needle repl rest := rfl

theorem pyReplace_append (needle : Char) (repl s u : List Char) :
    pyReplace needle repl (s ++ u)
      = pyReplace needle repl s ++ pyReplace needle repl u := by
  induction s with
  | nil => rfl
  | cons c s ih =>
    simp only [List.cons_append, pyReplace_cons, ih, List.append_assoc]

theorem pyReplace_of_not_mem (needle : Char) (repl : List Char)
    {s : List Char} (h : needle ∉ s) : pyReplace needle repl s = s := by
  induction s with
  | nil => rfl
  | cons c s ih =>
    have hc : ¬ c = needle := by
      intro he
      exact h (he ▸ List.mem_cons_self c s)
    rw [pyReplace_cons, if_neg hc,
      ih (fun hm => h (List.mem_cons_of_mem c hm))]
    rfl

/-- Core commutation fact: when x contains no Y character and y contains no X
character, substituting X first and then Y agrees with substituting Y first and
then X. -/
theorem replaceXY_comm (t x y : List Char) (hx : 'Y' ∉ x) (hy : 'X' ∉ y) :
    pyReplace 'Y' y (pyReplace 'X' x t)
      = pyReplace 'X' x (pyReplace 'Y' y t) := by
  induction t with
  | nil => rfl
  | cons c t ih =>
    simp only [pyReplace_cons, pyReplace_append, ih]
    congr 1
    by_cases hcx : c = 'X'
    · subst hcx
      rw [if_pos rfl, if_neg (by decide), pyReplace_of_not_mem _ _ hx,
        pyReplace_cons]
      rw [if_pos rfl]
      simp [pyReplace]
    · by_cases hcy : c = 'Y'
      · subst hcy
        rw [if_neg (by decide), if_pos rfl, pyReplace_of_not_mem _ _ hy,
          pyReplace_cons]
        rw [if_pos rfl]
        simp [pyReplace]
      · rw [if_neg hcx, if_neg hcy, pyReplace_cons, pyReplace_cons,
          if_neg hcy, if_neg hcx]
        rfl

/- ===================== C1 and C10 ===================== -/

/-- C1 (counterexample): the claimed unconditional commutativity of the two
replacements is false.  For template "X", x = "Y", y = "Z", replacing X first
gives "Z" (the substituted x is itself rewritten by the Y-pass), while
replacing Y first gives "Y". -/
theorem c1_counterexample :
    buildQuery ['X'] ['Y'] ['Z']
      ≠ pyReplace 'X' ['Y'] (pyReplace 'Y' ['Z'] ['X']) := by decide

/-- C1 (amended): the query of the Combination Runner is the same whether the
X-replacement or the Y-replacement is applied first, provided the substituted
x value contains no literal Y character and the substituted y value contains
no literal X character (in particular whenever the placeholder characters do
not occur inside the topic strings).  Unconditionally the code applies the
X-replacement first. -/
theorem c1_replace_order_comm (t x y : List Char)
    (hx : 'Y' ∉ x) (hy : 'X' ∉ y) :
    buildQuery t x y = pyReplace 'X' x (pyReplace 'Y' y t) :=
  replaceXY_comm t x y hx hy

/-- Witness for c1_replace_order_comm at template "XY", x = "a", y = "b". -/
theorem c1_replace_order_comm_witness :
    ('Y' ∉ ['a']) ∧ ('X' ∉ ['b']) ∧
      buildQuery ['X', 'Y'] ['a'] ['b']
        = pyReplace 'X' ['a'] (pyReplace 'Y' ['b'] ['X', 'Y']) :=
  ⟨by decide, by decide,
    c1_replace_order_comm ['X', 'Y'] ['a'] ['b'] (by decide) (by decide)⟩

/-- C10: the substitution order is fixed: the query is exactly the
Y-replacement applied to the result of the X-replacement.  Consequently any
literal Y characters inside the substituted x value are themselves replaced by
y (template "X" yields the Y-pass applied to x), while literal X characters
inside the y value are left intact (template "Y" yields y itself, whatever
characters y contains). -/
theorem c10_substitution_order :
    (∀ t x y : List Char,
        buildQuery t x y = pyReplace 'Y' y (pyReplace 'X' x t)) ∧
    (∀ x y : List Char, buildQuery ['X'] x y = pyReplace 'Y' y x) ∧
    (∀ x y : List Char, buildQuery ['Y'] x y = y) := by
  refine ⟨fun t x y => rfl, fun x y => ?_, fun x y => ?_⟩
  · show pyReplace 'Y' y (pyReplace 'X' x ['X']) = pyReplace 'Y' y x
    rw [pyReplace_cons, if_pos rfl]
    simp [pyReplace]
  · show pyReplace 'Y' y (pyReplace 'X' x ['Y']) = y
    rw [pyReplace_cons, if_neg (by decide)]
    simp [pyReplace]

/- ===================== Python splitlines ===================== -/

/-- The line-break characters recognised by Python str.splitlines. -/
def pyLineBreaks : List Char :=
  ['\n', '\r', '\x0b', '\x0c', '\x1c', '\x1d', '\x1e', '\x85', '\u2028', '\u2029']

def isLineBreak (c : Char) : Bool := pyLineBreaks.contains c

/-- Worker for Python str.splitlines: cur holds the characters of the current
line in reverse.  A carriage return directly followed by a line feed counts as
one break, and a terminal break does not open a trailing empty line. -/
def splitlinesAux (cur : List Char) : List Char → List (List Char)
  | [] => [cur.reverse]
  | [c] =>
    if isLineBreak c then [cur.reverse]
    else [(c :: cur).reverse]
  | c :: c2 :: rest =>
    if c = '\r' ∧ c2 = '\n' then
      cur.reverse :: (if rest.isEmpty then [] else splitlinesAux [] rest)
    else if isLineBreak c then
      cur.reverse :: splitlinesAux [] (c2 :: rest)
    else splitlinesAux (c :: cur) (c2 :: rest)

/-- Python str.splitlines (an empty string yields no lines). -/
def pySplitlines : List Char → List (List Char)
  | [] => []
  | c :: rest => splitlinesAux [] (c :: rest)

theorem splitlinesAux_nil (cur : List Char) :
    splitlinesAux cur [] = [cur.reverse] := rfl

theorem splitlinesAux_single (cur : List Char) (c : Char) :
    splitlinesAux cur [c]
      = if isLineBreak c then [cur.reverse] else [(c :: cur).reverse] := rfl

theorem splitlinesAux_cons2 (cur : List Char) (c c2 : Char) (rest : List Char) :
    splitlinesAux cur (c :: c2 :: rest)
      = if c = '\r' ∧ c2 = '\n' then
          cur.reverse :: (if rest.isEmpty then [] else splitlinesAux [] rest)
        else if isLineBreak c then
          cur.reverse :: splitlinesAux [] (c2 :: rest)
        else splitlinesAux (c :: cur) (c2 :: rest) := rfl

/- ===================== Lemmas about stripping ===================== -/

theorem dropWhile_dropWhile (p : Char → Bool) (l : List Char) :
    (l.dropWhile p).dropWhile p = l.dropWhile p := by
  induction l with
  | nil => rfl
  | cons a l ih =>
    rw [List.dropWhile_cons]
    by_cases h : p a
    · rw [if_pos h, ih]
    · rw [if_neg h, List.dropWhile_cons, if_neg h]

theorem exists_append_dropWhile (p : Char → Bool) (l : List Char) :
    ∃ u, u ++ l.dropWhile p = l := by
  induction l with
  | nil => exact ⟨[], rfl⟩
  | cons a l ih =>
    by_cases h : p a
    · obtain ⟨u, hu⟩ := ih
      exact ⟨a :: u, by rw [List.dropWhile_cons, if_pos h, List.cons_append, hu]⟩
    · exact ⟨[], by rw [List.nil_append, List.dropWhile_cons, if_neg h]⟩

theorem stripTrail_stripTrail (cs l : List Char) :
    stripTrail cs (stripTrail cs l) = stripTrail cs l := by
  simp only [stripTrail, List.reverse_reverse, dropWhile_dropWhile]

theorem stripTrail_prefix (cs l : List Char) : ∃ u, stripTrail cs l ++ u = l := by
  obtain ⟨u, hu⟩ := exists_append_dropWhile (fun c => cs.contains c) l.reverse
  refine ⟨u.reverse, ?_⟩
  have h := congrArg List.reverse hu
  simpa [stripTrail, List.reverse_append] using h

theorem stripLead_cons_of_not (cs : List Char) (c : Char) (l : List Char)
    (h : cs.contains c = false) : stripLead cs (c :: l) = c :: l := by
  have hc : ¬ ((fun x => cs.contains x) c = true) := by
    show ¬ (cs.contains c = true)
    rw [h]
    exact Bool.false_ne_true
  unfold stripLead
  rw [List.dropWhile_cons, if_neg hc]

theorem stripLead_stripTrail_of_fixed (cs l : List Char)
    (h : stripLead cs l = l) :
    stripLead cs (stripTrail cs l) = stripTrail cs l := by
  obtain ⟨u, hu⟩ := stripTrail_prefix cs l
  cases ht : stripTrail cs l with
  | nil => simp [stripLead]
  | cons c t =>
    have hl : l = c :: (t ++ u) := by
      rw [← hu, ht, List.cons_append]
    have hc : cs.contains c = false := by
      by_contra hcc
      have hcc' : cs.contains c = true := by
        simpa using hcc
      have h1 : stripLead cs l = stripLead cs (t ++ u) := by
        rw [hl]
        unfold stripLead
        rw [List.dropWhile_cons,
          if_pos (show (fun x => cs.contains x) c = true from hcc')]
      have h2 : l = stripLead cs (t ++ u) := by rw [← h, h1]
      have hlen : (stripLead cs (t ++ u)).length ≤ (t ++ u).length :=
        (List.dropWhile_sublist _).length_le
      have h3 : l.length ≤ (t ++ u).length := by rw [h2]; exact hlen
      have h4 : l.length = (t ++ u).length + 1 := by rw [hl]; simp
      omega
    exact stripLead_cons_of_not cs c t hc

theorem pyStrip_idem (cs s : List Char) :
    pyStrip cs (pyStrip cs s) = pyStrip cs s := by
  unfold pyStrip
  rw [stripLead_stripTrail_of_fixed cs (stripLead cs s)
      (dropWhile_dropWhile _ _),
    stripTrail_stripTrail]

theorem pyStripWs_idem (s : List Char) : pyStripWs (pyStripWs s) = pyStripWs s :=
  pyStrip_idem pyWhitespace s

theorem mem_of_mem_pyStrip {cs s : List Char} {c : Char}
    (h : c ∈ pyStrip cs s) : c ∈ s := by
  unfold pyStrip stripTrail stripLead at h
  have h1 := List.mem_reverse.mp h
  have h2 := (List.dropWhile_sublist _).subset h1
  have h3 := List.mem_reverse.mp h2
  exact (List.dropWhile_sublist _).subset h3

/- ===================== Lemmas about splitlines ===================== -/

theorem splitlinesAux_no_break (n : Nat) : ∀ (s cur : List Char),
    s.length ≤ n → (∀ c ∈ cur, isLineBreak c = false) →
    ∀ ln ∈ splitlinesAux cur s, ∀ c ∈ ln, isLineBreak c = false := by
  induction n with
  | zero =>
    intro s cur hs hcur ln hln c hc
    have hnil : s = [] := List.eq_nil_of_length_eq_zero (Nat.le_zero.mp hs)
    subst hnil
    rw [splitlinesAux_nil, List.mem_singleton] at hln
    subst hln
    exact hcur c (List.mem_reverse.mp hc)
  | succ n ih =>
    intro s cur hs hcur ln hln c hc
    cases s with
    | nil =>
      rw [splitlinesAux_nil, List.mem_singleton] at hln
      subst hln
      exact hcur c (List.mem_reverse.mp hc)
    | cons a s1 =>
      cases s1 with
      | nil =>
        rw [splitlinesAux_single] at hln
        by_cases hb : isLineBreak a = true
        · rw [if_pos hb, List.mem_singleton] at hln
          subst hln
          exact hcur c (List.mem_reverse.mp hc)
        · rw [if_neg hb, List.mem_singleton] at hln
          subst hln
          rcases List.mem_cons.mp (List.mem_reverse.mp hc) with h1 | h1
          · subst h1
            simpa using hb
          · exact hcur c h1
      | cons b s2 =>
        rw [splitlinesAux_cons2] at hln
        have hlen : s2.length + 2 ≤ n + 1 := by
          simpa [List.length_cons] using hs
        by_cases hcrlf : a = '\r' ∧ b = '\n'
        · rw [if_pos hcrlf] at hln
          rcases List.mem_cons.mp hln with h1 | h1
          · subst h1
            exact hcur c (List.mem_reverse.mp hc)
          · by_cases hre : s2.isEmpty
            · rw [if_pos hre] at h1
              simp at h1
            · rw [if_neg hre] at h1
              exact ih s2 [] (by omega) (by simp) ln h1 c hc
        · rw [if_neg hcrlf] at hln
          by_cases hb : isLineBreak a = true
          · rw [if_pos hb] at hln
            rcases List.mem_cons.mp hln with h1 | h1
            · subst h1
              exact hcur c (List.mem_reverse.mp hc)
            · exact ih (b :: s2) [] (by simp [List.length_cons]; omega)
                (by simp) ln h1 c hc
          · rw [if_neg hb] at hln
            refine ih (b :: s2) (a :: cur) (by simp [List.length_cons]; omega)
              ?_ ln hln c hc
            intro d hd
            rcases List.mem_cons.mp hd with h1 | h1
            · subst h1
              simpa using hb
            · exact hcur d h1

theorem no_break_of_mem_pySplitlines {s ln : List Char}
    (h : ln ∈ pySplitlines s) : ∀ c ∈ ln, isLineBreak c = false := by
  cases s with
  | nil => simp [pySplitlines] at h
  | cons a s1 =>
    exact splitlinesAux_no_break (a :: s1).length (a :: s1) []
      (Nat.le_refl _) (by simp) ln h

theorem splitlinesAux_no_break_run (w : List Char) : ∀ cur,
    (∀ c ∈ w, isLineBreak c = false) →
    splitlinesAux cur w = [cur.reverse ++ w] := by
  induction w with
  | nil =>
    intro cur h
    rw [splitlinesAux_nil, List.append_nil]
  | cons a w ih =>
    intro cur h
    have ha : isLineBreak a = false := h a (List.mem_cons_self a w)
    have ha' : ¬ (isLineBreak a = true) := by simp [ha]
    have har : ¬ a = '\r' := by
      intro he
      rw [he] at ha
      exact absurd ha (by decide)
    cases w with
    | nil =>
      rw [splitlinesAux_single, if_neg ha']
      simp
    | cons b w2 =>
      rw [splitlinesAux_cons2, if_neg (fun hand => har hand.1), if_neg ha',
        ih (a :: cur) (fun d hd => h d (List.mem_cons_of_mem a hd))]
      simp

theorem splitlinesAux_break_split (w : List Char) : ∀ (cur rest : List Char),
    (∀ c ∈ w, isLineBreak c = false) → rest ≠ [] →
    splitlinesAux cur (w ++ '\n' :: rest)
      = (cur.reverse ++ w) :: splitlinesAux [] rest := by
  induction w with
  | nil =>
    intro cur rest h hrest
    cases rest with
    | nil => exact absurd rfl hrest
    | cons r rs =>
      rw [List.nil_append, splitlinesAux_cons2,
        if_neg (fun hand => absurd hand.1 (by decide)),
        if_pos (by decide)]
      simp
  | cons a w ih =>
    intro cur rest h hrest
    have ha : isLineBreak a = false := h a (List.mem_cons_self a w)
    have ha' : ¬ (isLineBreak a = true) := by simp [ha]
    have har : ¬ a = '\r' := by
      intro he
      rw [he] at ha
      exact absurd ha (by decide)
    rw [List.cons_append]
    cases hw : w ++ '\n' :: rest with
    | nil => exact absurd hw (by simp)
    | cons b rest2 =>
      rw [splitlinesAux_cons2, if_neg (fun hand => har hand.1), if_neg ha',
        ← hw, ih (a :: cur) rest (fun d hd => h d (List.mem_cons_of_mem a hd))
          hrest]
      simp

/- ===================== Manual mode and newline join ===================== -/

/-- The manual-mode List Resolver (src/app.py:134-135):
[ln.strip() for ln in manual.splitlines() if ln.strip()]. -/
def manualList (s : List Char) : List (List Char) :=
  ((pySplitlines s).filter (fun ln => !(pyStripWs ln).isEmpty)).map
    (fun ln => pyStripWs ln)

/-- Joining a list of lines with a newline character, used to state
idempotence of the manual path. -/
def joinNL : List (List Char) → List Char
  | [] => []
  | [l] => l
  | l :: ls => l ++ '\n' :: joinNL ls

theorem pySplitlines_joinNL (ls : List (List Char)) (hne : ls ≠ [])
    (hent : ∀ l ∈ ls, l ≠ [] ∧ ∀ c ∈ l, isLineBreak c = false) :
    pySplitlines (joinNL ls) = ls := by
  induction ls with
  | nil => exact absurd rfl hne
  | cons x tl ih =>
    obtain ⟨hx, hxc⟩ := hent x (List.mem_cons_self x tl)
    cases tl with
    | nil =>
      show pySplitlines x = [x]
      cases hxe : x with
      | nil => exact absurd hxe hx
      | cons a s1 =>
        rw [hxe] at hxc
        show splitlinesAux [] (a :: s1) = [a :: s1]
        rw [splitlinesAux_no_break_run (a :: s1) [] hxc]
        rfl
    | cons y tl2 =>
      have hjoin : joinNL (x :: y :: tl2) = x ++ '\n' :: joinNL (y :: tl2) := rfl
      have hylen : joinNL (y :: tl2) ≠ [] := by
        cases tl2 with
        | nil => exact (hent y (by simp)).1
        | cons z tl3 => simp [joinNL]
      have hjne : x ++ '\n' :: joinNL (y :: tl2) ≠ [] := by simp
      rw [hjoin]
      cases hje : x ++ '\n' :: joinNL (y :: tl2) with
      | nil => exact absurd hje hjne
      | cons a s1 =>
        show splitlinesAux [] (a :: s1) = x :: y :: tl2
        rw [← hje, splitlinesAux_break_split x [] (joinNL (y :: tl2)) hxc hylen]
        rw [List.reverse_nil, List.nil_append]
        have htail : splitlinesAux [] (joinNL (y :: tl2)) = y :: tl2 := by
          have hrec := ih (by simp)
            (fun l hl => hent l (List.mem_cons_of_mem x hl))
          cases hjy : joinNL (y :: tl2) with
          | nil => exact absurd hjy hylen
          | cons b s2 =>
            rw [← hjy]
            rw [hjy] at hrec ⊢
            exact hrec
        rw [htail]

theorem mem_manualList {s e : List Char} (h : e ∈ manualList s) :
    pyStripWs e = e ∧ e ≠ [] ∧ ∀ c ∈ e, isLineBreak c = false := by
  obtain ⟨ln, hln, he⟩ := List.mem_map.mp h
  obtain ⟨hmem, hkeep⟩ := List.mem_filter.mp hln
  have hne : pyStripWs ln ≠ [] := by
    intro hnil
    rw [hnil] at hkeep
    simp at hkeep
  subst he
  refine ⟨pyStripWs_idem ln, hne, ?_⟩
  intro c hc
  exact no_break_of_mem_pySplitlines hmem c (mem_of_mem_pyStrip hc)

/-- C7: the manual-mode List Resolver returns exactly the whitespace-trimmed
forms of those input lines that are non-empty after trimming, each trimmed, in
their original order; it is total (a plain function), and it is idempotent:
applying it to the newline-join of its own output returns the same list. -/
theorem c7_manual_resolver :
    (∀ s : List Char,
        manualList s
          = ((pySplitlines s).filter (fun ln => !(pyStripWs ln).isEmpty)).map
              (fun ln => pyStripWs ln)) ∧
    (∀ s : List Char, manualList (joinNL (manualList s)) = manualList s) := by
  refine ⟨fun s => rfl, fun s => ?_⟩
  by_cases hnil : manualList s = []
  · rw [hnil]
    rfl
  · have hent : ∀ l ∈ manualList s,
        l ≠ [] ∧ ∀ c ∈ l, isLineBreak c = false :=
      fun l hl => ⟨(mem_manualList hl).2.1, (mem_manualList hl).2.2⟩
    show ((pySplitlines (joinNL (manualList s))).filter
        (fun ln => !(pyStripWs ln).isEmpty)).map (fun ln => pyStripWs ln)
      = manualList s
    rw [pySplitlines_joinNL (manualList s) hnil hent]
    have hfix : ∀ e ∈ manualList s, pyStripWs e = e :=
      fun e he => (mem_manualList he).1
    rw [List.filter_eq_self.mpr ?keep]
    case keep =>
      intro e he
      rw [hfix e he]
      simpa using (mem_manualList he).2.1
    calc (manualList s).map (fun ln => pyStripWs ln)
        = (manualList s).map id := List.map_congr_left hfix
      _ = manualList s := List.map_id _

/- ===================== Python values and str() ===================== -/

/-- Values a structured-list backend response can decode to: the Python
objects produced by json.loads, plus arbitrary strings.  Non-integer
numerals are carried as their source lexeme. -/
inductive PyVal where
  | str : List Char → PyVal
  | int : Int → PyVal
  | float : List Char → PyVal
  | bool : Bool → PyVal
  | none : PyVal
  | list : List PyVal → PyVal
  | dict : List (List Char × PyVal) → PyVal

def quoteChar : Char := Char.ofNat 39

def lbraceChar : Char := Char.ofNat 123

def rbraceChar : Char := Char.ofNat 125

def commaJoin : List (List Char) → List Char
  | [] => []
  | [x] => x
  | x :: xs => x ++ ',' :: ' ' :: commaJoin xs

mutual
/-- Model of Python repr() on these values.  Approximations kept out of every
claim: string reprs neither choose double quotes nor escape anything, and
float reprs return the stored lexeme. -/
def pyRepr : PyVal → List Char
  | PyVal.str s => quoteChar :: (s ++ [quoteChar])
  | PyVal.int i => (toString i).data
  | PyVal.float lex => lex
  | PyVal.bool b => if b then "True".data else "False".data
  | PyVal.none => "None".data
  | PyVal.list xs => '[' :: (pyReprList xs ++ [']'])
  | PyVal.dict kvs => lbraceChar :: (pyReprDict kvs ++ [rbraceChar])

def pyReprList : List PyVal → List Char
  | [] => []
  | [x] => pyRepr x
  | x :: xs => pyRepr x ++ ',' :: ' ' :: pyReprList xs

def pyReprDict : List (List Char × PyVal) → List Char
  | [] => []
  | [kv] => quoteChar :: (kv.1 ++ [quoteChar]) ++ ':' :: ' ' :: pyRepr kv.2
  | kv :: kvs =>
    quoteChar :: (kv.1 ++ [quoteChar]) ++ ':' :: ' ' :: pyRepr kv.2
      ++ ',' :: ' ' :: pyReprDict kvs
end

/-- Model of Python str(): the identity on strings; on every other shape
str() agrees with repr(), whose scalar cases are restated here so that they
reduce without the container recursion. -/
def pyStr : PyVal → List Char
  | PyVal.str s => s
  | PyVal.int i => (toString i).data
  | PyVal.float lex => lex
  | PyVal.bool b => if b then "True".data else "False".data
  | PyVal.none => "None".data
  | PyVal.list xs => pyRepr (PyVal.list xs)
  | PyVal.dict kvs => pyRepr (PyVal.dict kvs)

/- ===================== JSON parsing (model of json.loads) ===================== -/

def jsonWsChars : List Char := [' ', '\t', '\n', '\r']

def skipJsonWs (s : List Char) : List Char :=
  s.dropWhile (fun c => jsonWsChars.contains c)

def hexVal (c : Char) : Option Nat :=
  if '0' ≤ c ∧ c ≤ '9' then some (c.toNat - 48)
  else if 'a' ≤ c ∧ c ≤ 'f' then some (c.toNat - 87)
  else if 'A' ≤ c ∧ c ≤ 'F' then some (c.toNat - 55)
  else Option.none

def escChar (c : Char) : Option Char :=
  if c = '"' then some '"'
  else if c = '\\' then some '\\'
  else if c = '/' then some '/'
  else if c = 'b' then some '\x08'
  else if c = 'f' then some '\x0c'
  else if c = 'n' then some '\n'
  else if c = 'r' then some '\r'
  else if c = 't' then some '\t'
  else Option.none

/-- Parse the remainder of a JSON string literal (its opening quote already
consumed), returning the decoded characters and the remaining input.  Literal
control characters are rejected as in strict json.loads; a \u escape decodes
to a single code point. -/
def parseJString : List Char → Option (List Char × List Char)
  | [] => Option.none
  | c :: rest =>
    if c = '"' then some ([], rest)
    else if c = '\\' then
      match rest with
      | [] => Option.none
      | e :: rest2 =>
        if e = 'u' then
          match rest2 with
          | a :: b :: c3 :: d :: rest3 =>
            match hexVal a, hexVal b, hexVal c3, hexVal d with
            | some ha, some hb, some hc, some hd =>
              (parseJString rest3).map (fun pr =>
                (Char.ofNat (((ha * 16 + hb) * 16 + hc) * 16 + hd) :: pr.1,
                  pr.2))
            | _, _, _, _ => Option.none
          | _ => Option.none
        else
          match escChar e with
          | some ec => (parseJString rest2).map (fun pr => (ec :: pr.1, pr.2))
          | Option.none => Option.none
    else if c.toNat < 32 then Option.none
    else (parseJString rest).map (fun pr => (c :: pr.1, pr.2))

def digitsToNat (ds : List Char) : Nat :=
  ds.foldl (fun n c => n * 10 + (c.toNat - 48)) 0

/-- Parse a JSON numeral starting at the head of the input (json.loads also
accepts NaN, Infinity and -Infinity).  Integer numerals become int values;
numerals with a fraction or exponent keep their lexeme as a float. -/
def parseNumber (s : List Char) : Option (PyVal × List Char) :=
  let core := fun (t : List Char) (neg : Bool) =>
    match t with
    | [] => Option.none
    | c :: _ =>
      if c.isDigit then
        let ds := t.takeWhile Char.isDigit
        let s2 := t.dropWhile Char.isDigit
        if ds.length > 1 ∧ ds.headD '1' = '0' then Option.none
        else
          let fr : Option (List Char × List Char) :=
            match s2 with
            | '.' :: r =>
              let fs := r.takeWhile Char.isDigit
              if fs.isEmpty then Option.none
              else some ('.' :: fs, r.dropWhile Char.isDigit)
            | _ => some ([], s2)
          match fr with
          | Option.none => Option.none
          | some (fpart, s3) =>
            let ex : Option (List Char × List Char) :=
              match s3 with
              | e :: r =>
                if e = 'e' ∨ e = 'E' then
                  match r with
                  | sgn :: r2 =>
                    if sgn = '+' ∨ sgn = '-' then
                      let es := r2.takeWhile Char.isDigit
                      if es.isEmpty then Option.none
                      else some (e :: sgn :: es, r2.dropWhile Char.isDigit)
                    else
                      let es := r.takeWhile Char.isDigit
                      if es.isEmpty then Option.none
                      else some (e :: es, r.dropWhile Char.isDigit)
                  | [] => Option.none
                else some ([], s3)
              | [] => some ([], s3)
            match ex with
            | Option.none => Option.none
            | some (epart, s4) =>
              if fpart.isEmpty ∧ epart.isEmpty then
                let m : Int := Int.ofNat (digitsToNat ds)
                some (PyVal.int (if neg then -m else m), s4)
              else
                some (PyVal.float
                  ((if neg then ['-'] else []) ++ ds ++ fpart ++ epart), s4)
      else Option.none
  match s with
  | '-' :: t =>
    match t with
    | 'I' :: 'n' :: 'f' :: 'i' :: 'n' :: 'i' :: 't' :: 'y' :: r =>
      some (PyVal.float ("-Infinity".data), r)
    | _ => core t true
  | _ => core s false

/-- One fuel level of the JSON value / array-element / object-member parsers.
Bundling the three parsers as a triple makes the recursion plain structural
recursion on the fuel, so concrete inputs evaluate by kernel reduction. -/
def jsonStep : Nat →
    (List Char → Option (PyVal × List Char)) ×
    (List Char → Option (List PyVal × List Char)) ×
    (List Char → Option (List (List Char × PyVal) × List Char))
  | 0 => (fun _ => Option.none, fun _ => Option.none, fun _ => Option.none)
  | n + 1 =>
    let pv := (jsonStep n).1
    let pe := (jsonStep n).2.1
    let pm := (jsonStep n).2.2
    ( fun s =>
        match skipJsonWs s with
        | [] => Option.none
        | c :: rest =>
          if c = '"' then
            (parseJString rest).map (fun pr => (PyVal.str pr.1, pr.2))
          else if c = '[' then
            match skipJsonWs rest with
            | ']' :: r2 => some (PyVal.list [], r2)
            | r1 => (pe r1).map (fun pr => (PyVal.list pr.1, pr.2))
          else if c = lbraceChar then
            match skipJsonWs rest with
            | c2 :: r2 =>
              if c2 = rbraceChar then some (PyVal.dict [], r2)
              else (pm (c2 :: r2)).map (fun pr => (PyVal.dict pr.1, pr.2))
            | [] => Option.none
          else if c = 't' then
            match rest with
            | 'r' :: 'u' :: 'e' :: r => some (PyVal.bool true, r)
            | _ => Option.none
          else if c = 'f' then
            match rest with
            | 'a' :: 'l' :: 's' :: 'e' :: r => some (PyVal.bool false, r)
            | _ => Option.none
          else if c = 'n' then
            match rest with
            | 'u' :: 'l' :: 'l' :: r => some (PyVal.none, r)
            | _ => Option.none
          else if c = 'N' then
            match rest with
            | 'a' :: 'N' :: r => some (PyVal.float ("NaN".data), r)
            | _ => Option.none
          else if c = 'I' then
            match rest with
            | 'n' :: 'f' :: 'i' :: 'n' :: 'i' :: 't' :: 'y' :: r =>
              some (PyVal.float ("Infinity".data), r)
            | _ => Option.none
          else parseNumber (c :: rest),
      fun s =>
        match pv s with
        | Option.none => Option.none
        | some (v, r) =>
          match skipJsonWs r with
          | c :: r2 =>
            if c = ',' then (pe r2).map (fun pr => (v :: pr.1, pr.2))
            else if c = ']' then some ([v], r2)
            else Option.none
          | [] => Option.none,
      fun s =>
        match skipJsonWs s with
        | c :: r =>
          if c = '"' then
            match parseJString r with
            | Option.none => Option.none
            | some (k, r2) =>
              match skipJsonWs r2 with
              | c3 :: r3 =>
                if c3 = ':' then
                  match pv r3 with
                  | Option.none => Option.none
                  | some (v, r4) =>
                    match skipJsonWs r4 with
                    | c5 :: r5 =>
                      if c5 = ',' then
                        (pm r5).map (fun pr => ((k, v) :: pr.1, pr.2))
                      else if c5 = rbraceChar then some ([(k, v)], r5)
                      else Option.none
                    | [] => Option.none
                else Option.none
              | [] => Option.none
          else Option.none
        | [] => Option.none )

/-- Model of Python json.loads (src/app.py:67): parse one JSON value allowing
surrounding whitespace; Option.none models a raised decode error. -/
def jsonLoads (s : List Char) : Option PyVal :=
  match (jsonStep (2 * s.length + 2)).1 s with
  | some (v, rest) =>
    if (skipJsonWs rest).isEmpty then some v else Option.none
  | Option.none => Option.none

/- ===================== The generated-mode List Resolver ===================== -/

/-- The structured-list backend response shape used by list_gen
(src/app.py:51-75): parsed models getattr(resp, "parsed", None) with
Option.none for an absent or None attribute, and text models resp.text with
Option.none for a missing payload. -/
structure RawListResponse where
  parsed : Option PyVal
  text : Option (List Char)

/-- The stringify-trim-drop comprehension shared by tiers 1 and 2
(src/app.py:64 and src/app.py:69):
[str(x).strip() for x in data if str(x).strip()]. -/
def stringifyTier (xs : List PyVal) : List (List Char) :=
  (xs.filter (fun v => !(pyStripWs (pyStr v)).isEmpty)).map
    (fun v => pyStripWs (pyStr v))

/-- The generated-mode List Resolver list_gen (src/app.py:51-75).  Tier 1
uses resp.parsed when it is a list.  Otherwise tier 2 json-decodes resp.text
and uses the result when it is a list; any decode failure, including a
missing text (json.loads(None) raises and is caught), falls through.
Otherwise tier 3 strips the text, splits it into lines, drops lines that are
empty after whitespace trimming and strips bullet markers, dashes, spaces and
tabs from both ends of each kept line. -/
def list_gen (resp : RawListResponse) : List (List Char) :=
  match resp.parsed with
  | some (PyVal.list xs) => stringifyTier xs
  | _ =>
    match resp.text.bind jsonLoads with
    | some (PyVal.list ys) => stringifyTier ys
    | _ =>
      ((pySplitlines (pyStripWs (resp.text.getD []))).filter
          (fun ln => !(pyStripWs ln).isEmpty)).map
        (fun ln => pyStrip bulletStripSet ln)

/-- Tier 1 viewed as a strategy: applicable exactly when resp.parsed is a
list. -/
def tier1 (resp : RawListResponse) : Option (List (List Char)) :=
  match resp.parsed with
  | some (PyVal.list xs) => some (stringifyTier xs)
  | _ => Option.none

/-- Tier 2 viewed as a strategy: applicable exactly when resp.text
json-decodes to a list. -/
def tier2 (resp : RawListResponse) : Option (List (List Char)) :=
  match resp.text.bind jsonLoads with
  | some (PyVal.list ys) => some (stringifyTier ys)
  | _ => Option.none

/-- Tier 3, the total free-form fallback. -/
def tier3 (resp : RawListResponse) : List (List Char) :=
  ((pySplitlines (pyStripWs (resp.text.getD []))).filter
      (fun ln => !(pyStripWs ln).isEmpty)).map
    (fun ln => pyStrip bulletStripSet ln)

theorem list_gen_parsed_list (t : Option (List Char)) (xs : List PyVal) :
    list_gen ⟨some (PyVal.list xs), t⟩ = stringifyTier xs := rfl

theorem list_gen_of_parsed_not_list {p : Option PyVal} {t : Option (List Char)}
    (h : ∀ xs, p ≠ some (PyVal.list xs)) :
    list_gen ⟨p, t⟩ =
      match t.bind jsonLoads with
      | some (PyVal.list ys) => stringifyTier ys
      | _ => tier3 ⟨p, t⟩ := by
  cases p with
  | none => rfl
  | some v =>
    cases v
    case list xs => exact absurd rfl (h xs)
    all_goals rfl

theorem list_gen_eq_of_tier1 {resp : RawListResponse} {r : List (List Char)}
    (h : tier1 resp = some r) : list_gen resp = r := by
  rcases resp with ⟨p, t⟩
  cases p with
  | none => simp [tier1] at h
  | some v =>
    cases v
    case list xs =>
      have h' : stringifyTier xs = r := by simpa [tier1] using h
      rw [← h']
      rfl
    all_goals simp [tier1] at h

theorem list_gen_eq_of_tier2 {resp : RawListResponse} {r : List (List Char)}
    (h1 : tier1 resp = Option.none) (h2 : tier2 resp = some r) :
    list_gen resp = r := by
  rcases resp with ⟨p, t⟩
  have hnl : ∀ xs, p ≠ some (PyVal.list xs) := by
    intro xs he
    rw [he] at h1
    simp [tier1] at h1
  obtain ⟨ys, hb, hr⟩ : ∃ ys, t.bind jsonLoads = some (PyVal.list ys)
      ∧ r = stringifyTier ys := by
    cases hbj : t.bind jsonLoads with
    | none =>
      rw [tier2] at h2
      simp only at h2
      rw [hbj] at h2
      simp at h2
    | some v =>
      cases v
      case list ys =>
        refine ⟨ys, rfl, ?_⟩
        rw [tier2] at h2
        simp only at h2
        rw [hbj] at h2
        injection h2 with h2
        rw [h2]
      all_goals
        rw [tier2] at h2
        simp only at h2
        rw [hbj] at h2
        simp at h2
  rw [list_gen_of_parsed_not_list hnl, hb, hr]

theorem list_gen_eq_of_tier3 {resp : RawListResponse}
    (h1 : tier1 resp = Option.none) (h2 : tier2 resp = Option.none) :
    list_gen resp = tier3 resp := by
  rcases resp with ⟨p, t⟩
  have hnl : ∀ xs, p ≠ some (PyVal.list xs) := by
    intro xs he
    rw [he] at h1
    simp [tier1] at h1
  rw [list_gen_of_parsed_not_list hnl]
  cases hbj : t.bind jsonLoads with
  | none => rfl
  | some v =>
    cases v
    case list ys =>
      rw [tier2] at h2
      simp only at h2
      rw [hbj] at h2
      simp at h2
    all_goals rfl

theorem tier1_eq_stringify {resp : RawListResponse} {r : List (List Char)}
    (h : tier1 resp = some r) : ∃ xs, r = stringifyTier xs := by
  rcases resp with ⟨p, t⟩
  cases p with
  | none => simp [tier1] at h
  | some v =>
    cases v
    case list xs =>
      exact ⟨xs, by simpa [tier1] using h.symm⟩
    all_goals simp [tier1] at h

theorem tier2_eq_stringify {resp : RawListResponse} {r : List (List Char)}
    (h : tier2 resp = some r) : ∃ ys, r = stringifyTier ys := by
  rcases resp with ⟨p, t⟩
  cases hbj : t.bind jsonLoads with
  | none =>
    rw [tier2] at h
    simp only at h
    rw [hbj] at h
    simp at h
  | some v =>
    cases v
    case list ys =>
      refine ⟨ys, ?_⟩
      rw [tier2] at h
      simp only at h
      rw [hbj] at h
      injection h with h
      rw [h]
    all_goals
      rw [tier2] at h
      simp only at h
      rw [hbj] at h
      simp at h

theorem mem_stringifyTier {xs : List PyVal} {e : List Char}
    (h : e ∈ stringifyTier xs) : pyStripWs e ≠ [] := by
  obtain ⟨v, hv, he⟩ := List.mem_map.mp h
  obtain ⟨hv1, hv2⟩ := List.mem_filter.mp hv
  subst he
  have hne : pyStripWs (pyStr v) ≠ [] := by
    intro hnil
    rw [hnil] at hv2
    simp at hv2
  rw [pyStripWs_idem]
  exact hne

/- ===================== C2, C3, C8, C9 ===================== -/

/-- C2 (counterexample): the resolver does not continue to the next tier when
the current tier yields an empty list.  For a response whose parsed field is
the empty list and whose text is the JSON array of P and Q, tier 1 applies
and yields the empty list, and list_gen returns it even though tier 2 would
yield a non-empty list -- contradicting the claim that an empty result occurs
only when all three tiers yield an empty list. -/
theorem c2_counterexample :
    list_gen ⟨some (PyVal.list []),
        some ['[', '"', 'P', '"', ',', '"', 'Q', '"', ']']⟩ = [] ∧
      tier2 ⟨some (PyVal.list []),
        some ['[', '"', 'P', '"', ',', '"', 'Q', '"', ']']⟩
        = some [['P'], ['Q']] :=
  ⟨rfl, rfl⟩

/-- C2 (amended): the resolver applies the three tiers in order, but advances
to the next tier only when the current tier is inapplicable (the parsed field
is not a list; the text fails to json-decode to a list), not when the tier
yields an empty list; it is total (decode errors are caught), and it returns
the first applicable tier's output even when that output is empty and a later
tier would be non-empty. -/
theorem c2_tier_order (resp : RawListResponse) :
    list_gen resp =
      match tier1 resp with
      | some r => r
      | Option.none =>
        match tier2 resp with
        | some r => r
        | Option.none => tier3 resp := by
  cases h1 : tier1 resp with
  | some r => exact list_gen_eq_of_tier1 h1
  | none =>
    cases h2 : tier2 resp with
    | some r => exact list_gen_eq_of_tier2 h1 h2
    | none => exact list_gen_eq_of_tier3 h1 h2

/-- C3 (counterexample): tier 3 can produce an empty entry, violating the
TopicList invariant.  For a response that fails tiers 1 and 2 and whose text
is the single dash, the line passes the whitespace-emptiness filter but the
bullet stripping then reduces it to the empty string. -/
theorem c3_counterexample :
    [] ∈ list_gen ⟨Option.none, some ['-']⟩ := by decide

/-- C3 (amended): every TopicList produced by the manual path or by
generated-mode tiers 1 and 2 contains no empty and no whitespace-only
entries; tier 3 does not guarantee this (see the counterexample). -/
theorem c3_topiclist_invariant :
    (∀ s : List Char, ∀ e ∈ manualList s, pyStripWs e ≠ []) ∧
    (∀ (resp : RawListResponse) (r : List (List Char)), tier1 resp = some r →
      ∀ e ∈ r, pyStripWs e ≠ []) ∧
    (∀ (resp : RawListResponse) (r : List (List Char)), tier2 resp = some r →
      ∀ e ∈ r, pyStripWs e ≠ []) := by
  refine ⟨?_, ?_, ?_⟩
  · intro s e he
    obtain ⟨hfix, hne, -⟩ := mem_manualList he
    rw [hfix]
    exact hne
  · intro resp r h e he
    obtain ⟨xs, hr⟩ := tier1_eq_stringify h
    subst hr
    exact mem_stringifyTier he
  · intro resp r h e he
    obtain ⟨ys, hr⟩ := tier2_eq_stringify h
    subst hr
    exact mem_stringifyTier he

/-- Witness for c3_topiclist_invariant: the manual input consisting of the
single letter a yields the entry a, which is not whitespace-only. -/
theorem c3_topiclist_invariant_witness :
    (['a'] ∈ manualList ['a']) ∧ pyStripWs ['a'] ≠ [] :=
  ⟨by decide, c3_topiclist_invariant.1 ['a'] ['a'] (by decide)⟩

/-- C8: whenever a structured-list response decodes to a list -- via the
parsed field (tier 1) or by json-decoding the raw text (tier 2) -- the
resolver returns the trimmed string form of each element in element order,
dropping entries that are empty after trimming (the shared stringifyTier
comprehension); in particular a response with parsed unset and text equal to
the JSON array of P and Q yields the list P, Q, and numeric elements are
stringified. -/
theorem c8_structured_decode :
    (∀ (resp : RawListResponse) (xs : List PyVal),
        resp.parsed = some (PyVal.list xs) → list_gen resp = stringifyTier xs) ∧
    (∀ (resp : RawListResponse) (s : List Char) (ys : List PyVal),
        (∀ xs, resp.parsed ≠ some (PyVal.list xs)) →
        resp.text = some s → jsonLoads s = some (PyVal.list ys) →
        list_gen resp = stringifyTier ys) ∧
    list_gen ⟨Option.none, some ['[', '"', 'P', '"', ',', '"', 'Q', '"', ']']⟩
      = [['P'], ['Q']] ∧
    list_gen ⟨some (PyVal.list [PyVal.int 7, PyVal.int 42]), Option.none⟩
      = [['7'], ['4', '2']] := by
  refine ⟨?_, ?_, rfl, rfl⟩
  · intro resp xs h
    rcases resp with ⟨p, t⟩
    simp only at h
    subst h
    exact list_gen_parsed_list t xs
  · intro resp s ys hnl ht hj
    rcases resp with ⟨p, t⟩
    simp only at ht hnl
    subst ht
    rw [list_gen_of_parsed_not_list hnl]
    show (match jsonLoads s with
      | some (PyVal.list ys) => stringifyTier ys
      | _ => tier3 ⟨p, some s⟩) = stringifyTier ys
    rw [hj]

/-- Witness for c8_structured_decode: a parsed list containing the string P
followed by a space resolves through tier 1 to the stringify comprehension. -/
theorem c8_structured_decode_witness :
    ((⟨some (PyVal.list [PyVal.str ['P', ' ']]),
        Option.none⟩ : RawListResponse).parsed
      = some (PyVal.list [PyVal.str ['P', ' ']])) ∧
    list_gen ⟨some (PyVal.list [PyVal.str ['P', ' ']]), Option.none⟩
      = stringifyTier [PyVal.str ['P', ' ']] :=
  ⟨rfl, c8_structured_decode.1 _ _ rfl⟩

/-- C9: for a response that fails structured decoding (no parsed value and a
text that is not a JSON document) with text dash A, newline, dash B, two
newlines, dash C, the third tier returns exactly A, B, C: lines are split,
the empty line is dropped, and bullet markers with surrounding whitespace are
stripped. -/
theorem c9_bullet_fallback :
    list_gen ⟨Option.none,
        some ('-' :: ' ' :: 'A' :: '\n' :: '-' :: ' ' :: 'B' :: '\n' :: '\n'
          :: '-' :: ' ' :: ['C'])⟩
      = [['A'], ['B'], ['C']] := rfl

/- ===================== The Combination Runner ===================== -/

/-- gen_response (src/app.py:43-49): issue a backend text call and return the
stripped text, with a missing text treated as the empty string.  The backend
is a parameter; Except.error models a raised backend exception, which
gen_response propagates. -/
def gen_response (backend : List Char → Except Unit (Option (List Char)))
    (question : List Char) : Except Unit (List Char) :=
  match backend question with
  | Except.error e => Except.error e
  | Except.ok t => Except.ok (pyStripWs (t.getD []))

/-- One rendered result block of the run loop (src/app.py:152-199). -/
structure CombinationResult where
  x : List Char
  y : List Char
  query : List Char
  answer : List Char
deriving DecidableEq

def mkResult (t x y ans : List Char) : CombinationResult :=
  ⟨x, y, buildQuery t x y, ans⟩

/-- The inner Y-loop of the run (src/app.py:156-199) for a fixed x: returns
the results produced, the number of completed pairs, and whether the loop ran
to completion (false when a backend error aborted it). -/
def runInner (backend : List Char → Except Unit (Option (List Char)))
    (t x : List Char) : List (List Char) → List CombinationResult × Nat × Bool
  | [] => ([], 0, true)
  | y :: ys =>
    match gen_response backend (buildQuery t x y) with
    | Except.error _ => ([], 0, false)
    | Except.ok ans =>
      let r := runInner backend t x ys
      (mkResult t x y ans :: r.1, r.2.1 + 1, r.2.2)

/-- The outer X-loop of the run (src/app.py:152-199): an inner-loop abort
stops the whole run. -/
def runOuter (backend : List Char → Except Unit (Option (List Char)))
    (t : List Char) (ys : List (List Char)) :
    List (List Char) → List CombinationResult × Nat × Bool
  | [] => ([], 0, true)
  | x :: xs =>
    let r := runInner backend t x ys
    if r.2.2 then
      let r2 := runOuter backend t ys xs
      (r.1 ++ r2.1, r.2.1 + r2.2.1, r2.2.2)
    else (r.1, r.2.1, false)

/-- Outcome of the run branch (src/app.py:121-202) from the point where both
lists have been resolved: either the empty-list guard fires (st.warning and
st.stop at src/app.py:137-139, before the progress total and the loop), or
the nested loop runs. -/
inductive RunResult where
  | emptyWarning : RunResult
  | finished : List CombinationResult → Nat → Bool → RunResult
deriving DecidableEq

/-- The run from resolved lists onward: the guard `if not X_list or not
Y_list` (src/app.py:137) checks Python list truthiness, then the nested loop
of src/app.py:152-199 executes. -/
def runApp (backend : List Char → Except Unit (Option (List Char)))
    (t : List Char) (xs ys : List (List Char)) : RunResult :=
  if xs.isEmpty || ys.isEmpty then RunResult.emptyWarning
  else
    let r := runOuter backend t ys xs
    RunResult.finished r.1 r.2.1 r.2.2

/-- The row-major pair order (X outer, Y inner). -/
def rowMajor (xs ys : List (List Char)) : List (List Char × List Char) :=
  match xs with
  | [] => []
  | x :: xs2 => ys.map (fun y => (x, y)) ++ rowMajor xs2 ys

/-- Reference single-loop form of the runner over an explicit pair list. -/
def processPairs (backend : List Char → Except Unit (Option (List Char)))
    (t : List Char) :
    List (List Char × List Char) → List CombinationResult × Nat × Bool
  | [] => ([], 0, true)
  | p :: ps =>
    match gen_response backend (buildQuery t p.1 p.2) with
    | Except.error _ => ([], 0, false)
    | Except.ok ans =>
      let r := processPairs backend t ps
      (mkResult t p.1 p.2 ans :: r.1, r.2.1 + 1, r.2.2)

theorem processPairs_append (backend : List Char → Except Unit (Option (List Char)))
    (t : List Char) (ps qs : List (List Char × List Char)) :
    processPairs backend t (ps ++ qs) =
      (let r := processPairs backend t ps
       if r.2.2 then
         let r2 := processPairs backend t qs
         (r.1 ++ r2.1, r.2.1 + r2.2.1, r2.2.2)
       else (r.1, r.2.1, false)) := by
  induction ps with
  | nil =>
    simp [processPairs]
  | cons p ps ih =>
    rw [List.cons_append]
    show (match gen_response backend (buildQuery t p.1 p.2) with
      | Except.error _ => ([], 0, false)
      | Except.ok ans =>
        let r := processPairs backend t (ps ++ qs)
        (mkResult t p.1 p.2 ans :: r.1, r.2.1 + 1, r.2.2)) = _
    cases hg : gen_response backend (buildQuery t p.1 p.2) with
    | error e =>
      simp [processPairs, hg]
    | ok ans =>
      simp only [processPairs, hg, ih]
      by_cases hc : (processPairs backend t ps).2.2 = true
      · simp [hc, Prod.ext_iff]
        omega
      · simp [hc, Prod.ext_iff]

theorem runInner_eq_processPairs
    (backend : List Char → Except Unit (Option (List Char)))
    (t x : List Char) (ys : List (List Char)) :
    runInner backend t x ys
      = processPairs backend t (ys.map (fun y => (x, y))) := by
  induction ys with
  | nil => rfl
  | cons y ys ih =>
    show (match gen_response backend (buildQuery t x y) with
      | Except.error _ => ([], 0, false)
      | Except.ok ans =>
        let r := runInner backend t x ys
        (mkResult t x y ans :: r.1, r.2.1 + 1, r.2.2)) = _
    cases hg : gen_response backend (buildQuery t x y) with
    | error e => simp only [List.map_cons, processPairs, hg]
    | ok ans => simp only [List.map_cons, processPairs, hg, ih]

theorem runOuter_eq_processPairs
    (backend : List Char → Except Unit (Option (List Char)))
    (t : List Char) (ys xs : List (List Char)) :
    runOuter backend t ys xs = processPairs backend t (rowMajor xs ys) := by
  induction xs with
  | nil => rfl
  | cons x xs ih =>
    show (let r := runInner backend t x ys
      if r.2.2 then
        let r2 := runOuter backend t ys xs
        (r.1 ++ r2.1, r.2.1 + r2.2.1, r2.2.2)
      else (r.1, r.2.1, false)) = _
    rw [show rowMajor (x :: xs) ys = ys.map (fun y => (x, y)) ++ rowMajor xs ys
        from rfl,
      processPairs_append]
    simp only [runInner_eq_processPairs, ih]

theorem rowMajor_length (xs ys : List (List Char)) :
    (rowMajor xs ys).length = xs.length * ys.length := by
  induction xs with
  | nil => simp [rowMajor]
  | cons x xs ih =>
    show (ys.map (fun y => (x, y)) ++ rowMajor xs ys).length = _
    simp [List.length_append, List.length_map, ih, Nat.succ_mul, Nat.add_comm]

theorem rowMajor_eq_nil_iff (xs ys : List (List Char)) :
    rowMajor xs ys = [] ↔ xs = [] ∨ ys = [] := by
  induction xs with
  | nil => simp [rowMajor]
  | cons x xs ih =>
    show ys.map (fun y => (x, y)) ++ rowMajor xs ys = [] ↔ _
    simp [List.append_eq_nil, ih]
    tauto

theorem gen_response_ok (backend : List Char → Except Unit (Option (List Char)))
    (f : List Char → Option (List Char)) (q : List Char)
    (hb : backend q = Except.ok (f q)) :
    gen_response backend q = Except.ok (pyStripWs ((f q).getD [])) := by
  unfold gen_response
  rw [hb]

theorem processPairs_all_ok
    (backend : List Char → Except Unit (Option (List Char)))
    (f : List Char → Option (List Char)) (t : List Char)
    (ps : List (List Char × List Char))
    (hb : ∀ p ∈ ps, backend (buildQuery t p.1 p.2)
      = Except.ok (f (buildQuery t p.1 p.2))) :
    processPairs backend t ps
      = (ps.map (fun p =>
          mkResult t p.1 p.2 (pyStripWs ((f (buildQuery t p.1 p.2)).getD []))),
        ps.length, true) := by
  induction ps with
  | nil => rfl
  | cons p ps ih =>
    have hg := gen_response_ok backend f (buildQuery t p.1 p.2)
      (hb p (List.mem_cons_self p ps))
    show (match gen_response backend (buildQuery t p.1 p.2) with
      | Except.error _ => ([], 0, false)
      | Except.ok ans =>
        let r := processPairs backend t ps
        (mkResult t p.1 p.2 ans :: r.1, r.2.1 + 1, r.2.2)) = _
    rw [hg, ih (fun p hp => hb p (List.mem_cons_of_mem _ hp))]
    rfl

theorem processPairs_abort
    (backend : List Char → Except Unit (Option (List Char)))
    (f : List Char → Option (List Char)) (t : List Char)
    (ps1 : List (List Char × List Char)) (px py : List Char)
    (ps2 : List (List Char × List Char))
    (hok : ∀ p ∈ ps1, backend (buildQuery t p.1 p.2)
      = Except.ok (f (buildQuery t p.1 p.2)))
    (herr : backend (buildQuery t px py) = Except.error ()) :
    processPairs backend t (ps1 ++ (px, py) :: ps2)
      = (ps1.map (fun p =>
          mkResult t p.1 p.2 (pyStripWs ((f (buildQuery t p.1 p.2)).getD []))),
        ps1.length, false) := by
  induction ps1 with
  | nil =>
    rw [List.nil_append]
    have hg : gen_response backend (buildQuery t px py) = Except.error () := by
      unfold gen_response
      rw [herr]
    show (match gen_response backend (buildQuery t px py) with
      | Except.error _ => ([], 0, false)
      | Except.ok ans =>
        let r := processPairs backend t ps2
        (mkResult t px py ans :: r.1, r.2.1 + 1, r.2.2)) = _
    rw [hg]
    rfl
  | cons p ps1 ih =>
    have hg := gen_response_ok backend f (buildQuery t p.1 p.2)
      (hok p (List.mem_cons_self p ps1))
    rw [List.cons_append]
    show (match gen_response backend (buildQuery t p.1 p.2) with
      | Except.error _ => ([], 0, false)
      | Except.ok ans =>
        let r := processPairs backend t (ps1 ++ (px, py) :: ps2)
        (mkResult t p.1 p.2 ans :: r.1, r.2.1 + 1, r.2.2)) = _
    rw [hg, ih (fun p hp => hok p (List.mem_cons_of_mem _ hp))]
    rfl

/- ===================== C4, C5, C6 ===================== -/

/-- C4: when every backend call succeeds, the Runner yields exactly one
CombinationResult per pair of the Cartesian product, in row-major order
(X outer, Y inner, both in list order), each with the substituted query and
the stripped answer; the progress counter counts exactly one per completed
pair and ends at exactly size of X_list times size of Y_list, and the run
completes. -/
theorem c4_runner_complete
    (backend : List Char → Except Unit (Option (List Char)))
    (f : List Char → Option (List Char)) (t : List Char)
    (xs ys : List (List Char))
    (hb : ∀ q, backend q = Except.ok (f q)) (hx : xs ≠ []) (hy : ys ≠ []) :
    runApp backend t xs ys
      = RunResult.finished
          ((rowMajor xs ys).map (fun p =>
            mkResult t p.1 p.2 (pyStripWs ((f (buildQuery t p.1 p.2)).getD []))))
          (xs.length * ys.length) true := by
  have hguard : (xs.isEmpty || ys.isEmpty) = false := by
    cases xs with
    | nil => exact absurd rfl hx
    | cons a as =>
      cases ys with
      | nil => exact absurd rfl hy
      | cons b bs => rfl
  rw [runApp, hguard]
  simp only [Bool.false_eq_true, if_false, runOuter_eq_processPairs,
    processPairs_all_ok backend f t (rowMajor xs ys) (fun p _ => hb _),
    rowMajor_length]

/-- Witness for c4_runner_complete: an echoing backend, template
"In X, about Y", X_list containing only Mfg, Y_list containing only Cost:
exactly one result whose query is "In Mfg, about Cost". -/
theorem c4_runner_complete_witness :
    runApp (fun q => Except.ok (some q)) ("In X, about Y").data
        [("Mfg").data] [("Cost").data]
      = RunResult.finished
          [⟨("Mfg").data, ("Cost").data, ("In Mfg, about Cost").data,
            ("In Mfg, about Cost").data⟩] 1 true := by
  rw [c4_runner_complete (fun q => Except.ok (some q)) (fun q => some q)
    ("In X, about Y").data [("Mfg").data] [("Cost").data]
    (fun q => rfl) (by decide) (by decide)]
  rfl

/-- C5: if the backend fails on the k-th pair of the run (the pair list in
row-major order decomposing as ps1 before it, the failing pair, the rest),
and the earlier calls succeeded, then exactly the first k minus one
CombinationResults are produced, the counter stops at k minus one, and the
run aborts with no retry and no skip-and-continue. -/
theorem c5_backend_abort
    (backend : List Char → Except Unit (Option (List Char)))
    (f : List Char → Option (List Char)) (t : List Char)
    (xs ys : List (List Char)) (ps1 : List (List Char × List Char))
    (px py : List Char) (ps2 : List (List Char × List Char))
    (hsplit : rowMajor xs ys = ps1 ++ (px, py) :: ps2)
    (hok : ∀ p ∈ ps1, backend (buildQuery t p.1 p.2)
      = Except.ok (f (buildQuery t p.1 p.2)))
    (herr : backend (buildQuery t px py) = Except.error ()) :
    runApp backend t xs ys
      = RunResult.finished
          (ps1.map (fun p =>
            mkResult t p.1 p.2 (pyStripWs ((f (buildQuery t p.1 p.2)).getD []))))
          ps1.length false := by
  have hguard : (xs.isEmpty || ys.isEmpty) = false := by
    cases hxs : xs with
    | nil =>
      rw [hxs] at hsplit
      simp [rowMajor] at hsplit
    | cons a as =>
      cases hys : ys with
      | nil =>
        rw [hxs, hys] at hsplit
        have : rowMajor (a :: as) [] = [] :=
          (rowMajor_eq_nil_iff (a :: as) []).mpr (Or.inr rfl)
        rw [this] at hsplit
        simp at hsplit
      | cons b bs => rfl
  rw [runApp, hguard]
  simp only [Bool.false_eq_true, if_false, runOuter_eq_processPairs, hsplit,
    processPairs_abort backend f t ps1 px py ps2 hok herr]

/-- Witness for c5_backend_abort: template "X-Y", X_list a and b, Y_list 1, 2
and 3; the backend fails exactly on the query of the 4th pair (b, 1): the run
renders exactly the 3 earlier results and the counter stops at 3. -/
theorem c5_backend_abort_witness :
    runApp
        (fun q => if q = ['b', '-', '1'] then Except.error ()
          else Except.ok (some q))
        ['X', '-', 'Y'] [['a'], ['b']] [['1'], ['2'], ['3']]
      = RunResult.finished
          [⟨['a'], ['1'], ['a', '-', '1'], ['a', '-', '1']⟩,
            ⟨['a'], ['2'], ['a', '-', '2'], ['a', '-', '2']⟩,
            ⟨['a'], ['3'], ['a', '-', '3'], ['a', '-', '3']⟩] 3 false := by
  rw [c5_backend_abort
    (fun q => if q = ['b', '-', '1'] then Except.error () else Except.ok (some q))
    (fun q => some q) ['X', '-', 'Y'] [['a'], ['b']] [['1'], ['2'], ['3']]
    [(['a'], ['1']), (['a'], ['2']), (['a'], ['3'])] ['b'] ['1']
    [(['b'], ['2']), (['b'], ['3'])] rfl
    (by intro p hp; fin_cases hp <;> rfl) rfl]
  rfl

/-- C6: whenever either resolved list is empty, the guard of src/app.py:137
fires: the outcome is the user-visible empty-list warning, independent of the
backend (no per-pair backend call is reachable), and no CombinationResult is
produced. -/
theorem c6_empty_guard
    (backend : List Char → Except Unit (Option (List Char)))
    (t : List Char) (xs ys : List (List Char)) (h : xs = [] ∨ ys = []) :
    runApp backend t xs ys = RunResult.emptyWarning := by
  rcases h with h | h <;> subst h <;> simp [runApp]

/-- Witness for c6_empty_guard at an empty X_list and an always-failing
backend. -/
theorem c6_empty_guard_witness :
    runApp (fun _ => Except.error ()) ['X'] [] [['a']]
      = RunResult.emptyWarning :=
  c6_empty_guard (fun _ => Except.error ()) ['X'] [] [['a']] (Or.inl rfl)
